import Mathlib

/-!
# SegmentedControl — a verified shallow embedding

This file embeds the logic of `src/components/segmentedControl/index.tsx`
(the `SegmentedControl` React component) as a Lean state machine and proves
the specification's claims about it.

The component keeps:
* `selectedSegment : Int` React state, initialised to `-1`;
* `segmentsStyle`, a JS array filled by index with measured `{x, width}`
  geometry records (modelled as a `List (Option Geom)`, `none` standing for
  a hole of the sparse JS array);
* `segmentsCounter : Nat`, incremented on every layout report;
* an animated scalar value created as `Reanimated.Value(initialIndex)` and
  retargeted by `Reanimated.timing` on presses (we track its current target
  and the most recently started timing animation);
* the list of indices passed to the `onChangeIndex` callback (`changeLog`).

Event handlers (`onSegmentPress`, `updateSelectedSegment`, `onLayout`) and
the derived style (`getAnimatedStyle`) are translated directly from the
source.  Numbers are embedded as `ℚ`.
-/

/-- A measured segment geometry record `{x, width}`. -/
structure Geom where
  x : ℚ
  width : ℚ
deriving DecidableEq

/-- A cubic-bezier easing specification, `Easing.bezier(p1, p2, p3, p4)`. -/
structure EasingSpec where
  p1 : ℚ
  p2 : ℚ
  p3 : ℚ
  p4 : ℚ
deriving DecidableEq

/-- A started `Reanimated.timing` animation: target value, duration (ms),
easing curve. -/
structure AnimSpec where
  toValue : ℚ
  duration : ℚ
  easing : EasingSpec
deriving DecidableEq

/-- The configuration (props) of the component that its logic reads:
`segments` is modelled by its length only (`none` = the prop is undefined),
`initialIndex` defaults to 0 in the source, `outlineWidth` defaults to 1. -/
structure Config where
  segments : Option Nat
  initialIndex : Int
  outlineWidth : ℚ
deriving DecidableEq

/-- The mutable state of a mounted component. -/
structure State where
  selectedSegment : Int
  segmentsStyle : List (Option Geom)
  segmentsCounter : Nat
  animTarget : ℚ
  lastAnim : Option AnimSpec
  changeLog : List Nat
deriving DecidableEq

/-- Observable effects of one event-handler invocation, in the order the
source performs them. -/
inductive Eff where
  | changeIndex (index : Nat)
  | startTiming (anim : AnimSpec)
  | setSelected (index : Int)
deriving DecidableEq

/-- The events a mounted component can receive: a press on segment `i`
(forwarded by the `Segment` child) or a layout report for segment `i`. -/
inductive Event where
  | press (index : Nat)
  | layout (index : Nat) (g : Geom)
deriving DecidableEq

/-- State at mount: `useState(-1)`, empty geometry array, counter `0`,
`new Reanimated.Value(initialIndex)`, no animation started, no callback
invocations. -/
def initState (cfg : Config) : State :=
  { selectedSegment := -1
    segmentsStyle := []
    segmentsCounter := 0
    animTarget := (cfg.initialIndex : ℚ)
    lastAnim := none
    changeLog := [] }

/-- JS array assignment `arr[index] = v`: in-bounds writes overwrite, an
out-of-bounds write extends the array with holes up to `index`. -/
def jsSet (arr : List (Option Geom)) (index : Nat) (v : Geom) :
    List (Option Geom) :=
  if index < arr.length then arr.set index (some v)
  else arr ++ List.replicate (index - arr.length) none ++ [some v]

/-- The timing animation started by `updateSelectedSegment`: duration 300ms,
easing `Easing.bezier(0.33, 1, 0.68, 1)`. -/
def timingAnim (index : Nat) : AnimSpec :=
  { toValue := (index : ℚ)
    duration := 300
    easing := { p1 := 33/100, p2 := 1, p3 := 68/100, p4 := 1 } }

/-- Handler `updateSelectedSegment(index)`: start the timing animation of the
animated value toward `index`, then `setSelectedSegment(index)`. -/
def updateSelectedSegment (s : State) (index : Nat) : List Eff × State :=
  ([Eff.startTiming (timingAnim index), Eff.setSelected (index : Int)],
   { s with
      animTarget := (index : ℚ)
      lastAnim := some (timingAnim index)
      selectedSegment := (index : Int) })

/-- Handler `onSegmentPress(index)`: if `selectedSegment !== index`, invoke
`onChangeIndex?.(index)` and then `updateSelectedSegment(index)`;
otherwise do nothing. -/
def onSegmentPress (s : State) (index : Nat) : List Eff × State :=
  if s.selectedSegment ≠ (index : Int) then
    let r := updateSelectedSegment { s with changeLog := s.changeLog ++ [index] } index
    (Eff.changeIndex index :: r.1, r.2)
  else ([], s)

/-- Handler `onLayout(index, event)`: record `{x, width}` at `index`, increment the
counter, and if the counter now equals `segments?.length`, call
`setSelectedSegment(initialIndex)` (no `onChangeIndex`). -/
def onLayout (cfg : Config) (s : State) (index : Nat) (g : Geom) :
    List Eff × State :=
  let s1 :=
    { s with
        segmentsStyle := jsSet s.segmentsStyle index g
        segmentsCounter := s.segmentsCounter + 1 }
  match cfg.segments with
  | some n =>
      if s1.segmentsCounter = n then
        ([Eff.setSelected cfg.initialIndex],
         { s1 with selectedSegment := cfg.initialIndex })
      else ([], s1)
  | none => ([], s1)

/-- One event-handler dispatch (state part only). -/
def step (cfg : Config) (s : State) : Event → State
  | Event.press i => (onSegmentPress s i).2
  | Event.layout i g => (onLayout cfg s i g).2

/-- Run a sequence of events from a given state. -/
def runFrom (cfg : Config) (s : State) (es : List Event) : State :=
  es.foldl (step cfg) s

/-- Run a sequence of events from the mount state. -/
def run (cfg : Config) (es : List Event) : State :=
  runFrom cfg (initState cfg) es

/-- Linear interpolation across one segment of the piecewise table. -/
def lerpSeg (v i0 i1 o0 o1 : ℚ) : ℚ :=
  o0 + (v - i0) / (i1 - i0) * (o1 - o0)

/-- Modelled from the spec: the external animation driver's
`interpolate(value, {inputRange, outputRange})` (react-native-reanimated,
not part of this repository) — "piecewise-linear interpolation over matched
breakpoint arrays", with values beyond the first/last breakpoint extended
along the outermost segment.  The degenerate one-breakpoint table maps to
that breakpoint's output value; ill-formed tables (empty, or mismatched
lengths) yield an unspecified value, here 0. -/
def interp (v : ℚ) : List ℚ → List ℚ → ℚ
  | i0 :: i1 :: is, o0 :: o1 :: os =>
      if is = [] then lerpSeg v i0 i1 o0 o1
      else if v < i1 then lerpSeg v i0 i1 o0 o1
      else interp v (i1 :: is) (o1 :: os)
  | _ :: [], o0 :: _ => o0
  | _, _ => 0

/-- Lodash `_.times(n)`: the interpolation input range `[0, 1, ..., n-1]`. -/
def inputRange (n : Nat) : List ℚ :=
  (List.range n).map (fun k : Nat => (k : ℚ))

/-- Sequence a lodash `_.map` over the possibly sparse geometry array:
hitting a hole (`undefined.x`) throws, modelled as `none`. -/
def seqOpt : List (Option ℚ) → Option (List ℚ)
  | [] => some []
  | none :: _ => none
  | some q :: rest => (seqOpt rest).map (fun l => q :: l)

/-- The `outputRange` of the `left` interpolation:
`_.map(segmentsStyle.current, segment => segment.x - outlineWidth)`. -/
def leftRange (cfg : Config) (s : State) : Option (List ℚ) :=
  seqOpt (s.segmentsStyle.map (fun g => g.map (fun r => r.x - cfg.outlineWidth)))

/-- The `outputRange` of the `width` interpolation:
`_.map(segmentsStyle.current, segment => segment.width)`. -/
def widthRange (s : State) : Option (List ℚ) :=
  seqOpt (s.segmentsStyle.map (fun g => g.map (fun r => r.width)))

/-- Result of evaluating `getAnimatedStyle()` (and the interpolations it
builds) at a given value of the animated scalar: `noStyle` is the source's
`undefined`, `crash` a thrown exception (sparse geometry array). -/
inductive StyleResult where
  | crash
  | noStyle
  | style (left width : ℚ)
deriving DecidableEq

/-- Evaluation of `getAnimatedStyle()` at animated-scalar value `v`: if
`segmentsCounter === segments?.length`, interpolate `left` and `width` over
`inputRange = _.times(segmentsCounter)`; otherwise `undefined`. -/
def getAnimatedStyle (cfg : Config) (s : State) (v : ℚ) : StyleResult :=
  match cfg.segments with
  | some n =>
      if s.segmentsCounter = n then
        match leftRange cfg s, widthRange s with
        | some lefts, some widths =>
            StyleResult.style (interp v (inputRange s.segmentsCounter) lefts)
              (interp v (inputRange s.segmentsCounter) widths)
        | _, _ => StyleResult.crash
      else StyleResult.noStyle
  | none => StyleResult.noStyle

/-- The index an event carries. -/
def eventIdx : Event → Nat
  | Event.press i => i
  | Event.layout i _ => i

/-- Whether an event is a layout report. -/
def isLayout : Event → Bool
  | Event.press _ => false
  | Event.layout _ _ => true

/-- The indices of the layout reports in an event sequence, in order. -/
def layoutIdxs (es : List Event) : List Nat :=
  es.filterMap (fun e =>
    match e with
    | Event.layout i _ => some i
    | Event.press _ => none)

lemma inputRange_three : inputRange 3 = [0, 1, 2] := by
  simp [inputRange, List.range_succ]

example : interp (1 : ℚ) (inputRange 3) [0, 51, 113] = 51 := by
  rw [inputRange_three]; norm_num [interp, lerpSeg]

example :
    (run { segments := some 2, initialIndex := 0, outlineWidth := 1 }
      [Event.layout 0 ⟨0, 10⟩, Event.layout 1 ⟨12, 20⟩]).selectedSegment = 0 := by
  decide

lemma runFrom_nil (cfg : Config) (s : State) : runFrom cfg s [] = s := rfl

lemma runFrom_cons (cfg : Config) (s : State) (e : Event) (es : List Event) :
    runFrom cfg s (e :: es) = runFrom cfg (step cfg s e) es := rfl

lemma onSegmentPress_counter (s : State) (i : Nat) :
    (onSegmentPress s i).2.segmentsCounter = s.segmentsCounter := by
  unfold onSegmentPress updateSelectedSegment
  split <;> rfl

lemma onSegmentPress_style (s : State) (i : Nat) :
    (onSegmentPress s i).2.segmentsStyle = s.segmentsStyle := by
  unfold onSegmentPress updateSelectedSegment
  split <;> rfl

lemma onSegmentPress_sel_cases (s : State) (i : Nat) :
    (onSegmentPress s i).2.selectedSegment = (i : Int) ∨
    (onSegmentPress s i).2.selectedSegment = s.selectedSegment := by
  unfold onSegmentPress updateSelectedSegment
  split
  · exact Or.inl rfl
  · exact Or.inr rfl

lemma onLayout_counter (cfg : Config) (s : State) (i : Nat) (g : Geom) :
    (onLayout cfg s i g).2.segmentsCounter = s.segmentsCounter + 1 := by
  unfold onLayout
  cases cfg.segments with
  | none => rfl
  | some n =>
      dsimp only
      split <;> rfl

lemma onLayout_style (cfg : Config) (s : State) (i : Nat) (g : Geom) :
    (onLayout cfg s i g).2.segmentsStyle = jsSet s.segmentsStyle i g := by
  unfold onLayout
  cases cfg.segments with
  | none => rfl
  | some n =>
      dsimp only
      split <;> rfl

lemma onLayout_changeLog (cfg : Config) (s : State) (i : Nat) (g : Geom) :
    (onLayout cfg s i g).2.changeLog = s.changeLog := by
  unfold onLayout
  cases cfg.segments with
  | none => rfl
  | some n =>
      dsimp only
      split <;> rfl

lemma onLayout_sel_cases (cfg : Config) (s : State) (i : Nat) (g : Geom) :
    (onLayout cfg s i g).2.selectedSegment = cfg.initialIndex ∨
    (onLayout cfg s i g).2.selectedSegment = s.selectedSegment := by
  unfold onLayout
  cases cfg.segments with
  | none => exact Or.inr rfl
  | some n =>
      dsimp only
      split
      · exact Or.inl rfl
      · exact Or.inr rfl

lemma onLayout_fires (cfg : Config) (s : State) (i : Nat) (g : Geom) (n : Nat)
    (hseg : cfg.segments = some n) (hcnt : s.segmentsCounter + 1 = n) :
    (onLayout cfg s i g).2.selectedSegment = cfg.initialIndex := by
  unfold onLayout
  rw [hseg]
  dsimp only
  rw [if_pos hcnt]

lemma onLayout_no_fire (cfg : Config) (s : State) (i : Nat) (g : Geom) (n : Nat)
    (hseg : cfg.segments = some n) (hcnt : s.segmentsCounter + 1 ≠ n) :
    (onLayout cfg s i g).2.selectedSegment = s.selectedSegment := by
  unfold onLayout
  rw [hseg]
  dsimp only
  rw [if_neg hcnt]

lemma layoutIdxs_nil : layoutIdxs [] = [] := rfl

lemma layoutIdxs_press (i : Nat) (es : List Event) :
    layoutIdxs (Event.press i :: es) = layoutIdxs es := rfl

lemma layoutIdxs_layout (i : Nat) (g : Geom) (es : List Event) :
    layoutIdxs (Event.layout i g :: es) = i :: layoutIdxs es := rfl

lemma layoutIdxs_length_of_all (es : List Event)
    (h : ∀ e ∈ es, isLayout e = true) :
    (layoutIdxs es).length = es.length := by
  induction es with
  | nil => rfl
  | cons e es ih =>
      cases e with
      | press i => simpa [isLayout] using h (Event.press i) (by simp)
      | layout i g =>
          rw [layoutIdxs_layout]
          simp only [List.length_cons]
          rw [ih (fun e he => h e (by simp [he]))]

lemma runFrom_counter (cfg : Config) (es : List Event) : ∀ s : State,
    (runFrom cfg s es).segmentsCounter =
      s.segmentsCounter + (layoutIdxs es).length := by
  induction es with
  | nil => intro s; rfl
  | cons e es ih =>
      intro s
      rw [runFrom_cons, ih]
      cases e with
      | press i =>
          rw [layoutIdxs_press]
          show (onSegmentPress s i).2.segmentsCounter + _ = _
          rw [onSegmentPress_counter]
      | layout i g =>
          rw [layoutIdxs_layout]
          show (onLayout cfg s i g).2.segmentsCounter + _ = _
          rw [onLayout_counter]
          simp only [List.length_cons]
          omega

lemma runFrom_changeLog_of_layouts (cfg : Config) (es : List Event)
    (h : ∀ e ∈ es, isLayout e = true) : ∀ s : State,
    (runFrom cfg s es).changeLog = s.changeLog := by
  induction es with
  | nil => intro s; rfl
  | cons e es ih =>
      intro s
      cases e with
      | press i => simpa [isLayout] using h (Event.press i) (by simp)
      | layout i g =>
          rw [runFrom_cons]
          rw [ih (fun e he => h e (by simp [he]))]
          exact onLayout_changeLog cfg s i g

lemma runFrom_layouts_selected (cfg : Config) (n : Nat)
    (hseg : cfg.segments = some n) : ∀ (es : List Event) (s : State),
    (∀ e ∈ es, isLayout e = true) → es ≠ [] →
    s.segmentsCounter + es.length = n →
    (runFrom cfg s es).selectedSegment = cfg.initialIndex := by
  intro es
  induction es with
  | nil => intro s _ hne _; exact absurd rfl hne
  | cons e es ih =>
      intro s hall _ hcnt
      cases e with
      | press i => simpa [isLayout] using hall (Event.press i) (by simp)
      | layout i g =>
          rw [runFrom_cons]
          cases es with
          | nil =>
              rw [runFrom_nil]
              show (onLayout cfg s i g).2.selectedSegment = _
              exact onLayout_fires cfg s i g n hseg (by simpa using hcnt)
          | cons e2 es2 =>
              apply ih (step cfg s (Event.layout i g))
                (fun e he => hall e (by simp [he])) (by simp)
              show (onLayout cfg s i g).2.segmentsCounter + _ = n
              rw [onLayout_counter]
              simp only [List.length_cons] at hcnt ⊢
              omega

lemma runFrom_no_fire (cfg : Config) (n : Nat)
    (hseg : cfg.segments = some n) : ∀ (es : List Event) (s : State),
    (∀ e ∈ es, isLayout e = true) →
    s.segmentsCounter + es.length < n →
    (runFrom cfg s es).selectedSegment = s.selectedSegment := by
  intro es
  induction es with
  | nil => intro s _ _; rfl
  | cons e es ih =>
      intro s hall hcnt
      cases e with
      | press i => simpa [isLayout] using hall (Event.press i) (by simp)
      | layout i g =>
          rw [runFrom_cons]
          have h1 : (step cfg s (Event.layout i g)).selectedSegment =
              s.selectedSegment := by
            apply onLayout_no_fire cfg s i g n hseg
            simp only [List.length_cons] at hcnt
            omega
          rw [ih (step cfg s (Event.layout i g))
            (fun e he => hall e (by simp [he]))]
          · exact h1
          · show (onLayout cfg s i g).2.segmentsCounter + _ < n
            rw [onLayout_counter]
            simp only [List.length_cons] at hcnt
            omega

lemma selected_valid_aux (cfg : Config) (n : Nat)
    (hseg : cfg.segments = some n) (h0 : 0 ≤ cfg.initialIndex)
    (h1 : cfg.initialIndex < (n : Int)) : ∀ (es : List Event) (s : State),
    (∀ e ∈ es, eventIdx e < n) →
    (s.selectedSegment = -1 ∨
      (0 ≤ s.selectedSegment ∧ s.selectedSegment < (n : Int))) →
    ((runFrom cfg s es).selectedSegment = -1 ∨
      (0 ≤ (runFrom cfg s es).selectedSegment ∧
        (runFrom cfg s es).selectedSegment < (n : Int))) := by
  intro es
  induction es with
  | nil => intro s _ hs; exact hs
  | cons e es ih =>
      intro s hidx hs
      rw [runFrom_cons]
      apply ih (step cfg s e) (fun e he => hidx e (by simp [he]))
      cases e with
      | press i =>
          rcases onSegmentPress_sel_cases s i with h | h
          · right
            rw [show (step cfg s (Event.press i)).selectedSegment =
                (onSegmentPress s i).2.selectedSegment from rfl, h]
            have hi : i < n := hidx (Event.press i) (by simp)
            constructor
            · exact Int.ofNat_nonneg i
            · exact_mod_cast hi
          · rw [show (step cfg s (Event.press i)).selectedSegment =
                (onSegmentPress s i).2.selectedSegment from rfl, h]
            exact hs
      | layout i g =>
          rcases onLayout_sel_cases cfg s i g with h | h
          · right
            rw [show (step cfg s (Event.layout i g)).selectedSegment =
                (onLayout cfg s i g).2.selectedSegment from rfl, h]
            exact ⟨h0, h1⟩
          · rw [show (step cfg s (Event.layout i g)).selectedSegment =
                (onLayout cfg s i g).2.selectedSegment from rfl, h]
            exact hs

lemma interp_cons_cons (v i0 i1 o0 o1 : ℚ) (is os : List ℚ) :
    interp v (i0 :: i1 :: is) (o0 :: o1 :: os) =
      if is = [] then lerpSeg v i0 i1 o0 o1
      else if v < i1 then lerpSeg v i0 i1 o0 o1
      else interp v (i1 :: is) (o1 :: os) := by
  rw [interp]

lemma interp_single (v i0 o0 : ℚ) (os : List ℚ) :
    interp v [i0] (o0 :: os) = o0 := by
  rw [interp]

lemma lerpSeg_left (i0 i1 o0 o1 : ℚ) : lerpSeg i0 i0 i1 o0 o1 = o0 := by
  simp [lerpSeg]

lemma lerpSeg_right (i0 i1 o0 o1 : ℚ) (h : i0 < i1) :
    lerpSeg i1 i0 i1 o0 o1 = o1 := by
  have hne : i1 - i0 ≠ 0 := sub_ne_zero.mpr (ne_of_gt h)
  unfold lerpSeg
  rw [div_self hne]
  ring

lemma lerpSeg_mid (i0 i1 o0 o1 : ℚ) (h : i0 < i1) :
    lerpSeg ((i0 + i1) / 2) i0 i1 o0 o1 = (o0 + o1) / 2 := by
  have hne : i1 - i0 ≠ 0 := sub_ne_zero.mpr (ne_of_gt h)
  unfold lerpSeg
  field_simp
  ring

lemma chain_head_le (k : Nat) : ∀ (a : ℚ) (l : List ℚ)
    (h : k < (a :: l).length),
    List.Chain' (fun x y : ℚ => x < y) (a :: l) → a ≤ (a :: l).get ⟨k, h⟩ := by
  induction k with
  | zero => intro a l h _; rfl
  | succ k ih =>
      intro a l h hc
      cases l with
      | nil => simp at h
      | cons b l2 =>
          have hab : a < b := (List.chain'_cons.mp hc).1
          have h2 : (a :: b :: l2).get ⟨k + 1, h⟩ =
              (b :: l2).get ⟨k, by simpa using h⟩ := rfl
          rw [h2]
          exact le_trans (le_of_lt hab)
            (ih b l2 (by simpa using h) (List.chain'_cons.mp hc).2)

lemma interp_get : ∀ (inp out : List ℚ),
    List.Chain' (fun x y : ℚ => x < y) inp → inp.length = out.length →
    ∀ (k : Nat) (hk : k < inp.length) (hk2 : k < out.length),
    interp (inp.get ⟨k, hk⟩) inp out = out.get ⟨k, hk2⟩ := by
  intro inp
  induction inp with
  | nil => intro out _ _ k hk; simp at hk
  | cons i0 irest ih =>
      intro out hc hlen k hk hk2
      cases out with
      | nil => simp at hk2
      | cons o0 orest =>
          cases irest with
          | nil =>
              have hk0 : k = 0 := by simp at hk; omega
              subst hk0
              exact interp_single i0 i0 o0 orest
          | cons i1 irest2 =>
              cases orest with
              | nil => simp at hlen
              | cons o1 orest2 =>
                  have hi01 : i0 < i1 := (List.chain'_cons.mp hc).1
                  cases k with
                  | zero =>
                      rw [show ((i0 :: i1 :: irest2).get ⟨0, hk⟩) = i0 from rfl,
                        interp_cons_cons]
                      by_cases hrest : irest2 = []
                      · rw [if_pos hrest]
                        exact lerpSeg_left i0 i1 o0 o1
                      · rw [if_neg hrest, if_pos hi01]
                        exact lerpSeg_left i0 i1 o0 o1
                  | succ k2 =>
                      rw [show ((i0 :: i1 :: irest2).get ⟨k2 + 1, hk⟩) =
                          (i1 :: irest2).get ⟨k2, by simpa using hk⟩ from rfl,
                        interp_cons_cons]
                      cases irest2 with
                      | nil =>
                          have hk20 : k2 = 0 := by simp at hk; omega
                          subst hk20
                          rw [if_pos rfl]
                          exact lerpSeg_right i0 i1 o0 o1 hi01
                      | cons i2 irest3 =>
                          have hge : i1 ≤ (i1 :: i2 :: irest3).get
                              ⟨k2, by simpa using hk⟩ :=
                            chain_head_le k2 i1 (i2 :: irest3)
                              (by simpa using hk) (List.chain'_cons.mp hc).2
                          rw [if_neg (by simp), if_neg (not_lt.mpr hge)]
                          exact ih (o1 :: orest2) (List.chain'_cons.mp hc).2
                            (by simp only [List.length_cons] at hlen ⊢; omega)
                            k2 (by simpa using hk)
                            (by simp only [List.length_cons] at hk2 ⊢; omega)

lemma interp_seg : ∀ (inp out : List ℚ) (v : ℚ),
    List.Chain' (fun x y : ℚ => x < y) inp → inp.length = out.length →
    ∀ (k : Nat) (hk : k < inp.length) (hk1 : k + 1 < inp.length)
      (hok : k < out.length) (hok1 : k + 1 < out.length),
    inp.get ⟨k, hk⟩ ≤ v → v < inp.get ⟨k + 1, hk1⟩ →
    interp v inp out =
      lerpSeg v (inp.get ⟨k, hk⟩) (inp.get ⟨k + 1, hk1⟩)
        (out.get ⟨k, hok⟩) (out.get ⟨k + 1, hok1⟩) := by
  intro inp
  induction inp with
  | nil => intro out v _ _ k hk; simp at hk
  | cons i0 irest ih =>
      intro out v hc hlen k hk hk1 hok hok1 hvl hvr
      cases out with
      | nil => simp at hok
      | cons o0 orest =>
          cases irest with
          | nil => simp at hk1
          | cons i1 irest2 =>
              cases orest with
              | nil => simp at hlen
              | cons o1 orest2 =>
                  cases k with
                  | zero =>
                      rw [interp_cons_cons]
                      by_cases hrest : irest2 = []
                      · rw [if_pos hrest]
                        rfl
                      · rw [if_neg hrest,
                          if_pos (by exact hvr)]
                        rfl
                  | succ k2 =>
                      cases irest2 with
                      | nil => simp at hk1; omega
                      | cons i2 irest3 =>
                          cases orest2 with
                          | nil => simp at hlen
                          | cons o2 orest3 =>
                              have hge : i1 ≤ (i1 :: i2 :: irest3).get
                                  ⟨k2, by simpa using hk⟩ :=
                                chain_head_le k2 i1 (i2 :: irest3)
                                  (by simpa using hk)
                                  (List.chain'_cons.mp hc).2
                              have hnv : ¬ v < i1 :=
                                not_lt.mpr (le_trans hge hvl)
                              rw [interp_cons_cons, if_neg (by simp),
                                if_neg hnv]
                              exact ih (o1 :: o2 :: orest3) v
                                (List.chain'_cons.mp hc).2
                                (by simp only [List.length_cons] at hlen ⊢
                                    omega)
                                k2 (by simpa using hk)
                                (by simp only [List.length_cons] at hk1 ⊢
                                    omega)
                                (by simpa using hok)
                                (by simp only [List.length_cons] at hok1 ⊢
                                    omega)
                                hvl hvr

lemma inputRange_length (n : Nat) : (inputRange n).length = n := by
  rw [inputRange, List.length_map, List.length_range]

lemma inputRange_get (n k : Nat) (h : k < (inputRange n).length) :
    (inputRange n).get ⟨k, h⟩ = (k : ℚ) := by
  unfold inputRange
  rw [List.get_eq_getElem, List.getElem_map, List.getElem_range]

lemma inputRange_chain (n : Nat) :
    List.Chain' (fun x y : ℚ => x < y) (inputRange n) := by
  have h : List.Pairwise (fun x y : ℚ => x < y) (inputRange n) := by
    unfold inputRange
    exact List.Pairwise.map (fun k : Nat => (k : ℚ))
      (fun a b hab => by simp only []; exact_mod_cast hab)
      (List.pairwise_lt_range n)
  exact h.chain'

lemma seqOpt_map_some (geoms : List Geom) (f : Geom → ℚ) :
    seqOpt ((geoms.map some).map (fun g => g.map f)) = some (geoms.map f) := by
  induction geoms with
  | nil => rfl
  | cons g gs ih =>
      simp only [List.map_cons, Option.map_some']
      rw [seqOpt, ih]
      rfl

lemma leftRange_dense (cfg : Config) (s : State) (geoms : List Geom)
    (h : s.segmentsStyle = geoms.map some) :
    leftRange cfg s =
      some (geoms.map (fun r => r.x - cfg.outlineWidth)) := by
  rw [leftRange, h]
  exact seqOpt_map_some geoms (fun r => r.x - cfg.outlineWidth)

lemma widthRange_dense (s : State) (geoms : List Geom)
    (h : s.segmentsStyle = geoms.map some) :
    widthRange s = some (geoms.map (fun r => r.width)) := by
  rw [widthRange, h]
  exact seqOpt_map_some geoms (fun r => r.width)

lemma getAnimatedStyle_dense (cfg : Config) (s : State) (geoms : List Geom)
    (v : ℚ) (hstyle : s.segmentsStyle = geoms.map some)
    (hseg : cfg.segments = some geoms.length)
    (hcnt : s.segmentsCounter = geoms.length) :
    getAnimatedStyle cfg s v =
      StyleResult.style
        (interp v (inputRange geoms.length)
          (geoms.map (fun r => r.x - cfg.outlineWidth)))
        (interp v (inputRange geoms.length)
          (geoms.map (fun r => r.width))) := by
  have hl := leftRange_dense cfg s geoms hstyle
  have hw := widthRange_dense s geoms hstyle
  simp [getAnimatedStyle, hseg, hcnt, hl, hw]

lemma interp_inputRange_get (n : Nat) (out : List ℚ) (k : Nat)
    (hlen : out.length = n) (hk : k < n) :
    interp (k : ℚ) (inputRange n) out = out.get ⟨k, by omega⟩ := by
  have h1 : k < (inputRange n).length := by rw [inputRange_length]; exact hk
  have h := interp_get (inputRange n) out (inputRange_chain n)
    (by rw [inputRange_length, hlen]) k h1 (by omega)
  rw [inputRange_get n k h1] at h
  exact h

lemma interp_inputRange_mid (n : Nat) (out : List ℚ) (k : Nat)
    (hlen : out.length = n) (hk1 : k + 1 < n) :
    interp (((k : ℚ) + ((k : ℚ) + 1)) / 2) (inputRange n) out =
      (out.get ⟨k, by omega⟩ + out.get ⟨k + 1, by omega⟩) / 2 := by
  have hkin : k < (inputRange n).length := by rw [inputRange_length]; omega
  have hk1in : k + 1 < (inputRange n).length := by
    rw [inputRange_length]; omega
  have hcast : ((k + 1 : Nat) : ℚ) = (k : ℚ) + 1 := by push_cast; ring
  have hs := interp_seg (inputRange n) out (((k : ℚ) + ((k : ℚ) + 1)) / 2)
    (inputRange_chain n) (by rw [inputRange_length, hlen]) k hkin hk1in
    (by omega) (by omega)
    (by rw [inputRange_get n k hkin]; linarith)
    (by rw [inputRange_get n (k + 1) hk1in, hcast]; linarith)
  rw [inputRange_get n k hkin, inputRange_get n (k + 1) hk1in, hcast] at hs
  rw [hs]
  exact lerpSeg_mid (k : ℚ) ((k : ℚ) + 1) _ _ (by linarith)

lemma style_breakpoint_aux (cfg : Config) (s : State) (geoms : List Geom)
    (k : Nat) (hstyle : s.segmentsStyle = geoms.map some)
    (hseg : cfg.segments = some geoms.length)
    (hcnt : s.segmentsCounter = geoms.length) (hk : k < geoms.length) :
    getAnimatedStyle cfg s (k : ℚ) =
      StyleResult.style ((geoms.get ⟨k, hk⟩).x - cfg.outlineWidth)
        ((geoms.get ⟨k, hk⟩).width) := by
  rw [getAnimatedStyle_dense cfg s geoms (k : ℚ) hstyle hseg hcnt]
  congr 1
  · rw [interp_inputRange_get geoms.length _ k (by rw [List.length_map]) hk]
    simp [List.get_eq_getElem]
  · rw [interp_inputRange_get geoms.length _ k (by rw [List.length_map]) hk]
    simp [List.get_eq_getElem]

/-- C3: once all segments are measured, at an animated value exactly equal
to an integer breakpoint `k`, the derived highlight style is exactly
`{left: segments[k].x - outlineWidth, width: segments[k].width}`; in
particular, for 3 segments measured at `{x:0,w:50}, {x:52,w:60},
{x:114,w:40}` with `outlineWidth = 1` and `initialIndex = 1`, after all
three reports `selectedSegment = 1` and the highlight is
`{left: 51, width: 60}`. -/
theorem style_at_breakpoint (cfg : Config) (s : State) (geoms : List Geom)
    (k : Nat) (hstyle : s.segmentsStyle = geoms.map some)
    (hseg : cfg.segments = some geoms.length)
    (hcnt : s.segmentsCounter = geoms.length) (hk : k < geoms.length) :
    getAnimatedStyle cfg s (k : ℚ) =
      StyleResult.style ((geoms.get ⟨k, hk⟩).x - cfg.outlineWidth)
        ((geoms.get ⟨k, hk⟩).width) ∧
    (run ⟨some 3, 1, 1⟩
        [Event.layout 0 ⟨0, 50⟩, Event.layout 1 ⟨52, 60⟩,
          Event.layout 2 ⟨114, 40⟩]).selectedSegment = 1 ∧
    getAnimatedStyle ⟨some 3, 1, 1⟩
        (run ⟨some 3, 1, 1⟩
          [Event.layout 0 ⟨0, 50⟩, Event.layout 1 ⟨52, 60⟩,
            Event.layout 2 ⟨114, 40⟩]) 1 =
      StyleResult.style 51 60 := by
  refine ⟨style_breakpoint_aux cfg s geoms k hstyle hseg hcnt hk, rfl, ?_⟩
  have h := style_breakpoint_aux ⟨some 3, 1, 1⟩
    (run ⟨some 3, 1, 1⟩
      [Event.layout 0 ⟨0, 50⟩, Event.layout 1 ⟨52, 60⟩,
        Event.layout 2 ⟨114, 40⟩])
    [⟨0, 50⟩, ⟨52, 60⟩, ⟨114, 40⟩] 1 rfl rfl rfl (by decide)
  norm_num at h
  exact h

/-- Witness for C3 at a concrete input: a fully measured 2-segment control,
animated value at breakpoint 0. -/
theorem style_at_breakpoint_witness :
    getAnimatedStyle ⟨some 2, 0, 1⟩
        ⟨0, [some ⟨0, 10⟩, some ⟨12, 20⟩], 2, 0, none, []⟩ ((0 : Nat) : ℚ) =
      StyleResult.style ((0 : ℚ) - 1) 10 ∧
    (run ⟨some 3, 1, 1⟩
        [Event.layout 0 ⟨0, 50⟩, Event.layout 1 ⟨52, 60⟩,
          Event.layout 2 ⟨114, 40⟩]).selectedSegment = 1 ∧
    getAnimatedStyle ⟨some 3, 1, 1⟩
        (run ⟨some 3, 1, 1⟩
          [Event.layout 0 ⟨0, 50⟩, Event.layout 1 ⟨52, 60⟩,
            Event.layout 2 ⟨114, 40⟩]) 1 =
      StyleResult.style 51 60 :=
  style_at_breakpoint ⟨some 2, 0, 1⟩
    ⟨0, [some ⟨0, 10⟩, some ⟨12, 20⟩], 2, 0, none, []⟩
    [⟨0, 10⟩, ⟨12, 20⟩] 0 rfl rfl rfl (by decide)

/-- C8: once all segments are measured, at an animated value exactly
halfway between adjacent breakpoints `k` and `k+1`, the derived highlight
geometry is the arithmetic mean of the two breakpoints' `left` values and
of their `width` values (piecewise-linear interpolation law). -/
theorem style_at_midpoint (cfg : Config) (s : State) (geoms : List Geom)
    (k : Nat) (hstyle : s.segmentsStyle = geoms.map some)
    (hseg : cfg.segments = some geoms.length)
    (hcnt : s.segmentsCounter = geoms.length)
    (hk1 : k + 1 < geoms.length) :
    getAnimatedStyle cfg s (((k : ℚ) + ((k : ℚ) + 1)) / 2) =
      StyleResult.style
        ((((geoms.get ⟨k, by omega⟩).x - cfg.outlineWidth) +
            ((geoms.get ⟨k + 1, hk1⟩).x - cfg.outlineWidth)) / 2)
        (((geoms.get ⟨k, by omega⟩).width +
            (geoms.get ⟨k + 1, hk1⟩).width) / 2) := by
  rw [getAnimatedStyle_dense cfg s geoms _ hstyle hseg hcnt]
  congr 1
  · rw [interp_inputRange_mid geoms.length _ k (by rw [List.length_map]) hk1]
    simp [List.get_eq_getElem]
  · rw [interp_inputRange_mid geoms.length _ k (by rw [List.length_map]) hk1]
    simp [List.get_eq_getElem]

/-- Witness for C8 at a concrete input: a fully measured 2-segment control,
animated value halfway between breakpoints 0 and 1. -/
theorem style_at_midpoint_witness :
    getAnimatedStyle ⟨some 2, 0, 1⟩
        ⟨0, [some ⟨0, 10⟩, some ⟨12, 20⟩], 2, 0, none, []⟩
        (((0 : ℚ) + ((0 : ℚ) + 1)) / 2) =
      StyleResult.style
        ((((0 : ℚ) - 1) + ((12 : ℚ) - 1)) / 2) (((10 : ℚ) + 20) / 2) := by
  have h := style_at_midpoint ⟨some 2, 0, 1⟩
    ⟨0, [some ⟨0, 10⟩, some ⟨12, 20⟩], 2, 0, none, []⟩
    [⟨0, 10⟩, ⟨12, 20⟩] 0 rfl rfl rfl (by decide)
  simpa using h

lemma onSegmentPress_updates (s : State) (i : Nat)
    (h : s.selectedSegment ≠ (i : Int)) :
    (onSegmentPress s i).1 =
      [Eff.changeIndex i, Eff.startTiming (timingAnim i),
        Eff.setSelected (i : Int)] ∧
    (onSegmentPress s i).2.changeLog = s.changeLog ++ [i] ∧
    (onSegmentPress s i).2.selectedSegment = (i : Int) ∧
    (onSegmentPress s i).2.animTarget = (i : ℚ) ∧
    (onSegmentPress s i).2.lastAnim =
      some { toValue := (i : ℚ), duration := 300,
             easing := { p1 := 33/100, p2 := 1, p3 := 68/100, p4 := 1 } } := by
  simp [onSegmentPress, updateSelectedSegment, timingAnim, h]

/-- C1: pressing a valid index `i` different from the current
`selectedSegment` invokes `onChangeIndex(i)` exactly once and before the
state transition, makes `selectedSegment` equal to `i` immediately, and
starts a timing animation of the animated scalar toward `i` with duration
300ms and easing cubic-bezier(0.33, 1, 0.68, 1). -/
theorem press_different_index (s : State) (i : Nat)
    (h : s.selectedSegment ≠ (i : Int)) :
    (onSegmentPress s i).1 =
      [Eff.changeIndex i, Eff.startTiming (timingAnim i),
        Eff.setSelected (i : Int)] ∧
    (onSegmentPress s i).2.changeLog = s.changeLog ++ [i] ∧
    (onSegmentPress s i).2.selectedSegment = (i : Int) ∧
    (onSegmentPress s i).2.animTarget = (i : ℚ) ∧
    (onSegmentPress s i).2.lastAnim =
      some { toValue := (i : ℚ), duration := 300,
             easing := { p1 := 33/100, p2 := 1, p3 := 68/100, p4 := 1 } } :=
  onSegmentPress_updates s i h

/-- Witness for C1 at a concrete input: the mount state of a 2-segment
control, pressing index 1. -/
theorem press_different_index_witness :
    (onSegmentPress (initState ⟨some 2, 0, 1⟩) 1).1 =
      [Eff.changeIndex 1, Eff.startTiming (timingAnim 1), Eff.setSelected 1] ∧
    (onSegmentPress (initState ⟨some 2, 0, 1⟩) 1).2.changeLog = [1] ∧
    (onSegmentPress (initState ⟨some 2, 0, 1⟩) 1).2.selectedSegment = 1 ∧
    (onSegmentPress (initState ⟨some 2, 0, 1⟩) 1).2.animTarget = 1 ∧
    (onSegmentPress (initState ⟨some 2, 0, 1⟩) 1).2.lastAnim =
      some { toValue := 1, duration := 300,
             easing := { p1 := 33/100, p2 := 1, p3 := 68/100, p4 := 1 } } := by
  have h := press_different_index (initState ⟨some 2, 0, 1⟩) 1 (by decide)
  simpa [initState] using h

/-- C4: pressing the index currently equal to `selectedSegment` is a
complete no-op: the state (selection, geometry table, readiness counter,
animated target, last started animation, callback log) is unchanged and no
effect is emitted (no `onChangeIndex` call, no animation start). -/
theorem press_same_index (s : State) (i : Nat)
    (h : s.selectedSegment = (i : Int)) :
    onSegmentPress s i = ([], s) := by
  simp [onSegmentPress, h]

/-- Witness for C4 at a concrete input: a state with selection 1,
pressing index 1. -/
theorem press_same_index_witness :
    onSegmentPress ⟨1, [], 2, 1, none, []⟩ 1 = ([], ⟨1, [], 2, 1, none, []⟩) :=
  press_same_index ⟨1, [], 2, 1, none, []⟩ 1 (by decide)

/-- C2: for every N ≥ 1 segments, after all N segments have each reported
their layout exactly once (in any order), `selectedSegment` equals the
configured `initialIndex`, and `onChangeIndex` has not been invoked. -/
theorem all_layouts_seed_initial (cfg : Config) (n : Nat) (es : List Event)
    (hseg : cfg.segments = some n) (hn : 1 ≤ n)
    (hall : ∀ e ∈ es, isLayout e = true)
    (hperm : (layoutIdxs es).Perm (List.range n)) :
    (run cfg es).selectedSegment = cfg.initialIndex ∧
    (run cfg es).changeLog = [] := by
  have hlen : es.length = n := by
    rw [← layoutIdxs_length_of_all es hall, hperm.length_eq,
      List.length_range]
  constructor
  · apply runFrom_layouts_selected cfg n hseg es (initState cfg) hall
    · intro hnil
      rw [hnil] at hlen
      simp at hlen
      omega
    · simpa [initState] using hlen
  · rw [show run cfg es = runFrom cfg (initState cfg) es from rfl,
      runFrom_changeLog_of_layouts cfg es hall]
    rfl

/-- Witness for C2 at a concrete input: 2 segments reporting in order. -/
theorem all_layouts_seed_initial_witness :
    (run ⟨some 2, 5, 1⟩
        [Event.layout 0 ⟨0, 10⟩, Event.layout 1 ⟨12, 20⟩]).selectedSegment
      = 5 ∧
    (run ⟨some 2, 5, 1⟩
        [Event.layout 0 ⟨0, 10⟩, Event.layout 1 ⟨12, 20⟩]).changeLog = [] := by
  have h := all_layouts_seed_initial ⟨some 2, 5, 1⟩ 2
    [Event.layout 0 ⟨0, 10⟩, Event.layout 1 ⟨12, 20⟩] rfl (by omega)
    (by intro e he; fin_cases he <;> rfl)
    (by
      rw [show layoutIdxs [Event.layout 0 ⟨0, 10⟩, Event.layout 1 ⟨12, 20⟩]
          = [0, 1] from rfl,
        show List.range 2 = [0, 1] from rfl])
  exact h

lemma runFrom_append (cfg : Config) (s : State) (es1 es2 : List Event) :
    runFrom cfg s (es1 ++ es2) = runFrom cfg (runFrom cfg s es1) es2 := by
  unfold runFrom
  exact List.foldl_append _ _ _ _

lemma run_append (cfg : Config) (es1 es2 : List Event) :
    run cfg (es1 ++ es2) = runFrom cfg (run cfg es1) es2 := by
  unfold run
  exact runFrom_append cfg (initState cfg) es1 es2

/-- C9: after any partial measurement (any number of layout reports short
of the segment count, so the readiness gate has not passed and
`selectedSegment` is still `-1`), pressing a valid index `i` invokes
`onChangeIndex(i)` (exactly once) and makes `selectedSegment` and the
animated target equal to `i`; when the remaining layout reports then make
the counter equal the segment count, the gate resets `selectedSegment` to
`initialIndex` without invoking `onChangeIndex`, overriding the user's
earlier selection. -/
theorem press_before_gate_overridden (cfg : Config) (n i : Nat)
    (es1 es2 : List Event) (hseg : cfg.segments = some n) (hi : i < n)
    (hall1 : ∀ e ∈ es1, isLayout e = true) (hlt : es1.length < n)
    (hall2 : ∀ e ∈ es2, isLayout e = true)
    (htot : es1.length + es2.length = n) :
    (run cfg es1).selectedSegment = -1 ∧
    (run cfg (es1 ++ [Event.press i])).selectedSegment = (i : Int) ∧
    (run cfg (es1 ++ [Event.press i])).changeLog = [i] ∧
    (run cfg (es1 ++ [Event.press i])).animTarget = (i : ℚ) ∧
    (run cfg (es1 ++ [Event.press i] ++ es2)).selectedSegment =
      cfg.initialIndex ∧
    (run cfg (es1 ++ [Event.press i] ++ es2)).changeLog = [i] := by
  have h1 : (run cfg es1).selectedSegment = -1 := by
    rw [show run cfg es1 = runFrom cfg (initState cfg) es1 from rfl,
      runFrom_no_fire cfg n hseg es1 (initState cfg) hall1
        (by simp only [initState]; omega)]
    rfl
  have hlog1 : (run cfg es1).changeLog = [] := by
    rw [show run cfg es1 = runFrom cfg (initState cfg) es1 from rfl,
      runFrom_changeLog_of_layouts cfg es1 hall1]
    rfl
  have hcnt1 : (run cfg es1).segmentsCounter = es1.length := by
    rw [show run cfg es1 = runFrom cfg (initState cfg) es1 from rfl,
      runFrom_counter, layoutIdxs_length_of_all es1 hall1]
    simp [initState]
  have hne : (run cfg es1).selectedSegment ≠ (i : Int) := by
    rw [h1]
    omega
  have hpress := onSegmentPress_updates (run cfg es1) i hne
  have hmid : run cfg (es1 ++ [Event.press i]) =
      (onSegmentPress (run cfg es1) i).2 := by
    rw [run_append]
    rfl
  have hfin : run cfg (es1 ++ [Event.press i] ++ es2) =
      runFrom cfg (run cfg (es1 ++ [Event.press i])) es2 :=
    run_append cfg (es1 ++ [Event.press i]) es2
  refine ⟨h1, ?_, ?_, ?_, ?_, ?_⟩
  · rw [hmid]; exact hpress.2.2.1
  · rw [hmid, hpress.2.1, hlog1]
    rfl
  · rw [hmid]; exact hpress.2.2.2.1
  · rw [hfin]
    apply runFrom_layouts_selected cfg n hseg es2 _ hall2
    · intro hnil
      rw [hnil] at htot
      simp at htot
      omega
    · rw [hmid, onSegmentPress_counter, hcnt1]
      omega
  · rw [hfin, runFrom_changeLog_of_layouts cfg es2 hall2, hmid, hpress.2.1,
      hlog1]
    rfl

/-- Witness for C9 at a concrete input: 2 segments, segment 0 reports (a
partial measurement), index 1 is pressed before the gate passes, then the
remaining report from segment 1 arrives. -/
theorem press_before_gate_overridden_witness :
    (run ⟨some 2, 0, 1⟩ [Event.layout 0 ⟨0, 10⟩]).selectedSegment = -1 ∧
    (run ⟨some 2, 0, 1⟩
        ([Event.layout 0 ⟨0, 10⟩] ++ [Event.press 1])).selectedSegment = 1 ∧
    (run ⟨some 2, 0, 1⟩
        ([Event.layout 0 ⟨0, 10⟩] ++ [Event.press 1])).changeLog = [1] ∧
    (run ⟨some 2, 0, 1⟩
        ([Event.layout 0 ⟨0, 10⟩] ++ [Event.press 1])).animTarget = 1 ∧
    (run ⟨some 2, 0, 1⟩
        ([Event.layout 0 ⟨0, 10⟩] ++ [Event.press 1] ++
          [Event.layout 1 ⟨12, 20⟩])).selectedSegment = 0 ∧
    (run ⟨some 2, 0, 1⟩
        ([Event.layout 0 ⟨0, 10⟩] ++ [Event.press 1] ++
          [Event.layout 1 ⟨12, 20⟩])).changeLog = [1] := by
  have h := press_before_gate_overridden ⟨some 2, 0, 1⟩ 2 1
    [Event.layout 0 ⟨0, 10⟩] [Event.layout 1 ⟨12, 20⟩] rfl (by omega)
    (by intro e he; fin_cases he; rfl) (by decide)
    (by intro e he; fin_cases he; rfl) (by decide)
  simpa using h

/-- C6 counterexample: pressing index 1 of a 2-segment control before any
layout report is a reachable state in which the readiness gate has not
passed (the counter, which only counts layout reports, is still 0, and it
was 0 in every earlier state of the trace) yet `selectedSegment` is 1, not
`-1` — refuting "`selectedSegment` is `-1` until the readiness gate
passes". -/
theorem selected_before_gate_counterexample :
    (run ⟨some 2, 0, 1⟩ [Event.press 1]).segmentsCounter = 0 ∧
    (run ⟨some 2, 0, 1⟩ []).segmentsCounter = 0 ∧
    (run ⟨some 2, 0, 1⟩ [Event.press 1]).selectedSegment = 1 := by
  refine ⟨rfl, rfl, rfl⟩

/-- C6 (amended): `selectedSegment` is `-1` until the readiness gate passes
or a segment is pressed; and under a valid configuration (`initialIndex` in
`[0, count-1]`, presses and layout reports carrying valid indices) it is,
in every reachable state, either still `-1` or a valid index in
`[0, count-1]`. -/
theorem selected_valid (cfg : Config) (n : Nat) (es : List Event)
    (hseg : cfg.segments = some n) (h0 : 0 ≤ cfg.initialIndex)
    (h1 : cfg.initialIndex < (n : Int))
    (hidx : ∀ e ∈ es, eventIdx e < n) :
    (((∀ e ∈ es, isLayout e = true) ∧ (layoutIdxs es).length < n) →
      (run cfg es).selectedSegment = -1) ∧
    ((run cfg es).selectedSegment = -1 ∨
      (0 ≤ (run cfg es).selectedSegment ∧
        (run cfg es).selectedSegment < (n : Int))) := by
  constructor
  · rintro ⟨hall, hlt⟩
    rw [show run cfg es = runFrom cfg (initState cfg) es from rfl,
      runFrom_no_fire cfg n hseg es (initState cfg) hall]
    · rfl
    · rw [layoutIdxs_length_of_all es hall] at hlt
      simpa [initState] using hlt
  · apply selected_valid_aux cfg n hseg h0 h1 es (initState cfg) hidx
    left
    rfl

/-- Witness for C6 (amended) at a concrete input: 2 segments, a single
layout report (gate not yet passed). -/
theorem selected_valid_witness :
    (run ⟨some 2, 0, 1⟩ [Event.layout 0 ⟨0, 10⟩]).selectedSegment = -1 ∧
    ((run ⟨some 2, 0, 1⟩ [Event.layout 0 ⟨0, 10⟩]).selectedSegment = -1 ∨
      (0 ≤ (run ⟨some 2, 0, 1⟩ [Event.layout 0 ⟨0, 10⟩]).selectedSegment ∧
        (run ⟨some 2, 0, 1⟩ [Event.layout 0 ⟨0, 10⟩]).selectedSegment < 2)) := by
  have h := selected_valid ⟨some 2, 0, 1⟩ 2 [Event.layout 0 ⟨0, 10⟩] rfl
    (by decide) (by decide) (by intro e he; fin_cases he <;> decide)
  exact ⟨h.1 ⟨by intro e he; fin_cases he <;> rfl, by decide⟩,
    by exact_mod_cast h.2⟩

lemma noStyle_of_gate_closed (cfg : Config) (s : State)
    (h : ∀ n, cfg.segments = some n → s.segmentsCounter ≠ n) (v : ℚ) :
    getAnimatedStyle cfg s v = StyleResult.noStyle := by
  cases hseg : cfg.segments with
  | none => simp [getAnimatedStyle, hseg]
  | some n => simp [getAnimatedStyle, hseg, h n hseg]

/-- C5 (amended): whenever the readiness counter differs from the length of
the `segments` array — in particular whenever `segments` is undefined —
`getAnimatedStyle` returns `undefined`, so no highlight style is applied. -/
theorem style_undefined_before_ready (cfg : Config) (s : State)
    (h : ∀ n, cfg.segments = some n → s.segmentsCounter ≠ n) (v : ℚ) :
    getAnimatedStyle cfg s v = StyleResult.noStyle :=
  noStyle_of_gate_closed cfg s h v

/-- Witness for C5 (amended) at a concrete input: a freshly mounted
2-segment control (counter 0 ≠ 2). -/
theorem style_undefined_before_ready_witness :
    getAnimatedStyle ⟨some 2, 0, 1⟩ (initState ⟨some 2, 0, 1⟩) 0 =
      StyleResult.noStyle := by
  refine style_undefined_before_ready ⟨some 2, 0, 1⟩ (initState ⟨some 2, 0, 1⟩) ?_ 0
  intro n hn
  injection hn with h2
  subst h2
  norm_num [initState]

lemma onLayout_fst_no_fire (cfg : Config) (s : State) (i : Nat) (g : Geom)
    (n : Nat) (hseg : cfg.segments = some n)
    (hcnt : s.segmentsCounter + 1 ≠ n) :
    (onLayout cfg s i g).1 = [] := by
  unfold onLayout
  rw [hseg]
  dsimp only
  rw [if_neg hcnt]

/-- C10: once the readiness gate has passed (counter equal to the segment
count), one more layout report pushes the counter strictly past the count
without re-firing the gate (selection, callback log and emitted effects
untouched); from then on, after any further event sequence, the counter
stays above the count and `getAnimatedStyle` returns `undefined` on every
evaluation, while pressing a non-selected index still updates the selection
and fires the callback as usual. -/
theorem extra_layout_after_gate (cfg : Config) (n : Nat) (s : State)
    (hseg : cfg.segments = some n) (hcnt : s.segmentsCounter = n)
    (i : Nat) (g : Geom) :
    (onLayout cfg s i g).2.segmentsCounter = n + 1 ∧
    (onLayout cfg s i g).2.selectedSegment = s.selectedSegment ∧
    (onLayout cfg s i g).2.changeLog = s.changeLog ∧
    (onLayout cfg s i g).1 = [] ∧
    (∀ (es : List Event) (v : ℚ),
      n < (runFrom cfg (onLayout cfg s i g).2 es).segmentsCounter ∧
      getAnimatedStyle cfg (runFrom cfg (onLayout cfg s i g).2 es) v =
        StyleResult.noStyle) ∧
    (∀ j : Nat, s.selectedSegment ≠ (j : Int) →
      (onSegmentPress (onLayout cfg s i g).2 j).2.selectedSegment = (j : Int) ∧
      (onSegmentPress (onLayout cfg s i g).2 j).2.changeLog =
        s.changeLog ++ [j]) := by
  have hne : s.segmentsCounter + 1 ≠ n := by omega
  have hc1 : (onLayout cfg s i g).2.segmentsCounter = n + 1 := by
    rw [onLayout_counter, hcnt]
  have hsel : (onLayout cfg s i g).2.selectedSegment = s.selectedSegment :=
    onLayout_no_fire cfg s i g n hseg hne
  refine ⟨hc1, hsel, onLayout_changeLog cfg s i g,
    onLayout_fst_no_fire cfg s i g n hseg hne, ?_, ?_⟩
  · intro es v
    have hcc : (runFrom cfg (onLayout cfg s i g).2 es).segmentsCounter =
        n + 1 + (layoutIdxs es).length := by
      rw [runFrom_counter, hc1]
    constructor
    · omega
    · apply noStyle_of_gate_closed
      intro m hm
      rw [hseg] at hm
      injection hm with hm2
      omega
  · intro j hj
    have hj2 : (onLayout cfg s i g).2.selectedSegment ≠ (j : Int) := by
      rw [hsel]; exact hj
    constructor
    · simp [onSegmentPress, updateSelectedSegment, hj2]
    · rw [show (onSegmentPress (onLayout cfg s i g).2 j).2.changeLog =
          (onLayout cfg s i g).2.changeLog ++ [j] from by
            simp [onSegmentPress, updateSelectedSegment, hj2],
        onLayout_changeLog]

/-- Witness for C10 at a concrete input: a fully measured single-segment
control receiving a duplicate layout report. -/
theorem extra_layout_after_gate_witness :
    (onLayout ⟨some 1, 0, 1⟩ (run ⟨some 1, 0, 1⟩ [Event.layout 0 ⟨0, 10⟩]) 0
        ⟨0, 10⟩).2.segmentsCounter = 2 ∧
    getAnimatedStyle ⟨some 1, 0, 1⟩
        (runFrom ⟨some 1, 0, 1⟩
          (onLayout ⟨some 1, 0, 1⟩ (run ⟨some 1, 0, 1⟩ [Event.layout 0 ⟨0, 10⟩])
            0 ⟨0, 10⟩).2 [])
        0 = StyleResult.noStyle := by
  have h := extra_layout_after_gate ⟨some 1, 0, 1⟩ 1
    (run ⟨some 1, 0, 1⟩ [Event.layout 0 ⟨0, 10⟩]) rfl rfl 0 ⟨0, 10⟩
  exact ⟨h.1, (h.2.2.2.2.1 [] 0).2⟩

lemma jsSet_length (arr : List (Option Geom)) (i : Nat) (v : Geom) :
    (jsSet arr i v).length = max arr.length (i + 1) := by
  unfold jsSet
  split
  · rw [List.length_set]
    omega
  · simp only [List.length_append, List.length_replicate, List.length_cons,
      List.length_nil]
    omega

lemma jsSet_hasAt (arr : List (Option Geom)) (i : Nat) (v : Geom) (j : Nat) :
    (Option.join ((jsSet arr i v)[j]?)).isSome = true ↔
      (j = i ∨ (Option.join (arr[j]?)).isSome = true) := by
  unfold jsSet
  split
  · rename_i hlt
    rw [List.getElem?_set]
    by_cases hij : i = j
    · subst hij
      simp [hlt]
    · have hji : j ≠ i := fun h => hij h.symm
      simp [hij, hji]
  · rename_i hge
    have hL : arr.length ≤ i := by omega
    by_cases hj1 : j < arr.length
    · rw [List.getElem?_append_left
        (by simp only [List.length_append, List.length_replicate]; omega),
        List.getElem?_append_left hj1]
      have : j ≠ i := by omega
      simp [this]
    · by_cases hj2 : j < i
      · rw [List.getElem?_append_left
          (by simp only [List.length_append, List.length_replicate]; omega),
          List.getElem?_append_right (by omega), List.getElem?_replicate]
        rw [if_pos (by omega)]
        have h1 : arr[j]? = none := List.getElem?_eq_none (by omega)
        have h2 : j ≠ i := by omega
        simp [h1, h2]
      · by_cases hj3 : j = i
        · subst hj3
          rw [List.getElem?_append_right
            (by simp only [List.length_append, List.length_replicate]; omega)]
          have : j - (arr ++ List.replicate (j - arr.length) none).length = 0 := by
            simp only [List.length_append, List.length_replicate]
            omega
          rw [this]
          simp
        · rw [List.getElem?_append_right
            (by simp only [List.length_append, List.length_replicate]; omega)]
          have : j - (arr ++ List.replicate (i - arr.length) none).length ≥ 1 := by
            simp only [List.length_append, List.length_replicate]
            omega
          have h1 : ([some v] : List (Option Geom))[j - (arr ++ List.replicate (i - arr.length) none).length]? = none := by
            apply List.getElem?_eq_none
            simpa using this
          rw [h1]
          have h2 : arr[j]? = none := List.getElem?_eq_none (by omega)
          simp [h2, hj3]

lemma hasAt_lt_length (l : List (Option Geom)) (j : Nat)
    (h : (Option.join (l[j]?)).isSome = true) : j < l.length := by
  by_contra hc
  rw [List.getElem?_eq_none (by omega)] at h
  simp at h

lemma runFrom_hasAt (cfg : Config) (es : List Event) : ∀ (s : State) (j : Nat),
    (Option.join (((runFrom cfg s es).segmentsStyle)[j]?)).isSome = true ↔
      (j ∈ layoutIdxs es ∨
        (Option.join ((s.segmentsStyle)[j]?)).isSome = true) := by
  induction es with
  | nil => intro s j; simp [layoutIdxs, runFrom_nil]
  | cons e es ih =>
      intro s j
      cases e with
      | press i =>
          rw [runFrom_cons, ih, layoutIdxs_press,
            show (step cfg s (Event.press i)).segmentsStyle =
              s.segmentsStyle from onSegmentPress_style s i]
      | layout i g =>
          rw [runFrom_cons, ih, layoutIdxs_layout,
            show (step cfg s (Event.layout i g)).segmentsStyle =
              jsSet s.segmentsStyle i g from onLayout_style cfg s i g,
            jsSet_hasAt]
          simp only [List.mem_cons]
          tauto

lemma runFrom_styleLen_le (cfg : Config) (n : Nat) (es : List Event) :
    ∀ s : State, (∀ j ∈ layoutIdxs es, j < n) →
    s.segmentsStyle.length ≤ n →
    (runFrom cfg s es).segmentsStyle.length ≤ n := by
  induction es with
  | nil => intro s _ hs; exact hs
  | cons e es ih =>
      intro s hj hs
      rw [runFrom_cons]
      cases e with
      | press i =>
          apply ih
          · intro j hmem
            exact hj j (by rw [layoutIdxs_press] at *; exact hmem)
          · rw [show (step cfg s (Event.press i)).segmentsStyle =
              s.segmentsStyle from onSegmentPress_style s i]
            exact hs
      | layout i g =>
          apply ih
          · intro j hmem
            exact hj j (by rw [layoutIdxs_layout]; simp [hmem])
          · rw [show (step cfg s (Event.layout i g)).segmentsStyle =
              jsSet s.segmentsStyle i g from onLayout_style cfg s i g,
              jsSet_length]
            have : i < n := hj i (by rw [layoutIdxs_layout]; simp)
            omega

lemma seqOpt_all_some (l : List (Option Geom)) (f : Geom → ℚ)
    (h : ∀ o ∈ l, o.isSome = true) :
    ∃ qs, seqOpt (l.map (fun g => g.map f)) = some qs ∧
      qs.length = l.length := by
  induction l with
  | nil => exact ⟨[], rfl, rfl⟩
  | cons o rest ih =>
      cases o with
      | none => simpa using h none (by simp)
      | some g =>
          obtain ⟨qs, hq, hlen⟩ := ih (fun o ho => h o (by simp [ho]))
          refine ⟨f g :: qs, ?_, by simp [hlen]⟩
          simp only [List.map_cons, Option.map_some']
          rw [seqOpt, hq]
          rfl

/-- C7 counterexample: with 2 segments, two layout reports from segment 0
(a duplicate report) make the readiness counter reach 2, so the gate holds
and the highlight geometry is computed — but the geometry table has a
single entry, so the interpolation `outputRange`s have length 1 while the
`inputRange` has length 2, refuting "the inputRange and outputRange arrays
passed to each interpolation have the same length". -/
theorem ranges_mismatch_counterexample :
    (run ⟨some 2, 0, 1⟩
        [Event.layout 0 ⟨0, 10⟩, Event.layout 0 ⟨0, 10⟩]).segmentsCounter
      = 2 ∧
    (inputRange (run ⟨some 2, 0, 1⟩
        [Event.layout 0 ⟨0, 10⟩,
          Event.layout 0 ⟨0, 10⟩]).segmentsCounter).length = 2 ∧
    ((leftRange ⟨some 2, 0, 1⟩ (run ⟨some 2, 0, 1⟩
        [Event.layout 0 ⟨0, 10⟩, Event.layout 0 ⟨0, 10⟩])).getD []).length
      = 1 ∧
    ((widthRange (run ⟨some 2, 0, 1⟩
        [Event.layout 0 ⟨0, 10⟩, Event.layout 0 ⟨0, 10⟩])).getD []).length
      = 1 :=
  ⟨rfl, rfl, rfl, rfl⟩

/-- C7 (amended): whenever the highlight geometry is computed after each
segment has reported its layout exactly once, the interpolation
`inputRange` is `0..count-1` (the counter equals the count) and both
`outputRange`s exist and have the same length `count` as the
`inputRange`. -/
theorem ranges_aligned (cfg : Config) (n : Nat) (es : List Event)
    (hseg : cfg.segments = some n)
    (hperm : (layoutIdxs es).Perm (List.range n)) :
    (run cfg es).segmentsCounter = n ∧
    inputRange (run cfg es).segmentsCounter = inputRange n ∧
    (inputRange (run cfg es).segmentsCounter).length = n ∧
    (∃ lefts, leftRange cfg (run cfg es) = some lefts ∧ lefts.length = n) ∧
    (∃ widths, widthRange (run cfg es) = some widths ∧
      widths.length = n) := by
  have hcnt : (run cfg es).segmentsCounter = n := by
    rw [show run cfg es = runFrom cfg (initState cfg) es from rfl,
      runFrom_counter, hperm.length_eq, List.length_range]
    simp [initState]
  have hmem : ∀ j : Nat,
      (Option.join (((run cfg es).segmentsStyle)[j]?)).isSome = true ↔
        j < n := by
    intro j
    rw [show run cfg es = runFrom cfg (initState cfg) es from rfl,
      runFrom_hasAt, hperm.mem_iff]
    simp [initState, List.mem_range]
  have hlenle : (run cfg es).segmentsStyle.length ≤ n := by
    apply runFrom_styleLen_le cfg n es (initState cfg)
    · intro j hj
      exact List.mem_range.mp (hperm.mem_iff.mp hj)
    · simp [initState]
  have hlenge : n ≤ (run cfg es).segmentsStyle.length := by
    cases n with
    | zero => omega
    | succ m =>
        have h := (hmem m).mpr (by omega)
        have := hasAt_lt_length _ m h
        omega
  have hlen : (run cfg es).segmentsStyle.length = n := by omega
  have hall : ∀ o ∈ (run cfg es).segmentsStyle, o.isSome = true := by
    intro o ho
    obtain ⟨⟨j, hjlt⟩, hget⟩ := List.mem_iff_get.mp ho
    have h2 : ((run cfg es).segmentsStyle)[j]? = some o := by
      rw [List.getElem?_eq_getElem hjlt]
      exact congrArg some hget
    have h3 := (hmem j).mpr (by omega)
    rw [h2] at h3
    simpa using h3
  obtain ⟨lefts, hl, hllen⟩ :=
    seqOpt_all_some _ (fun r => r.x - cfg.outlineWidth) hall
  obtain ⟨widths, hw, hwlen⟩ := seqOpt_all_some _ (fun r => r.width) hall
  exact ⟨hcnt, by rw [hcnt], by rw [hcnt, inputRange_length],
    ⟨lefts, hl, by rw [hllen, hlen]⟩, ⟨widths, hw, by rw [hwlen, hlen]⟩⟩

/-- Witness for C7 (amended) at a concrete input: 2 segments each reporting
once. -/
theorem ranges_aligned_witness :
    (run ⟨some 2, 0, 1⟩
        [Event.layout 0 ⟨0, 10⟩, Event.layout 1 ⟨12, 20⟩]).segmentsCounter
      = 2 ∧
    inputRange (run ⟨some 2, 0, 1⟩
        [Event.layout 0 ⟨0, 10⟩, Event.layout 1 ⟨12, 20⟩]).segmentsCounter
      = inputRange 2 ∧
    (inputRange (run ⟨some 2, 0, 1⟩
        [Event.layout 0 ⟨0, 10⟩,
          Event.layout 1 ⟨12, 20⟩]).segmentsCounter).length = 2 ∧
    (∃ lefts, leftRange ⟨some 2, 0, 1⟩ (run ⟨some 2, 0, 1⟩
        [Event.layout 0 ⟨0, 10⟩, Event.layout 1 ⟨12, 20⟩]) = some lefts ∧
      lefts.length = 2) ∧
    (∃ widths, widthRange (run ⟨some 2, 0, 1⟩
        [Event.layout 0 ⟨0, 10⟩, Event.layout 1 ⟨12, 20⟩]) = some widths ∧
      widths.length = 2) :=
  ranges_aligned ⟨some 2, 0, 1⟩ 2
    [Event.layout 0 ⟨0, 10⟩, Event.layout 1 ⟨12, 20⟩] rfl
    (by rw [show layoutIdxs [Event.layout 0 ⟨0, 10⟩, Event.layout 1 ⟨12, 20⟩]
          = [0, 1] from rfl,
        show List.range 2 = [0, 1] from rfl])

/-- C5 counterexample: with `segments` an EMPTY array the claim fails — the
readiness gate holds immediately (counter 0 equals length 0), so
`getAnimatedStyle` does NOT return `undefined`: it builds a (degenerate)
interpolated style. -/
theorem style_empty_segments_counterexample :
    getAnimatedStyle ⟨some 0, 0, 1⟩ (initState ⟨some 0, 0, 1⟩) 0 =
      StyleResult.style 0 0 ∧
    getAnimatedStyle ⟨some 0, 0, 1⟩ (initState ⟨some 0, 0, 1⟩) 0 ≠
      StyleResult.noStyle := by
  constructor
  · simp [getAnimatedStyle, initState, leftRange, widthRange, seqOpt,
      inputRange, interp]
  · simp [getAnimatedStyle, initState, leftRange, widthRange, seqOpt,
      inputRange, interp]
